import Mathlib

/-!
Shallow embedding of the addr-alloc allocator (addr_alloc.go).

The Go program allocates stable IPv4 addresses to named devices: a
4-byte address type with a byte-wise successor (`nextIP`), a persisted
device → address mapping held in a BoltDB bucket "addresses", an
in-memory cursor `next`, an HTTP handler (`ServeGet`, `ServeAll`,
routing in `ServeHTTP`) and a startup recovery scan in `main` that
recomputes the cursor from the stored records.

Machine bytes are modelled as `Nat` with explicit `% 256`; the store is
an association list with BoltDB's put-overwrites semantics; each
`db.Update` transaction is one atomic step, and its possible failure is
an explicit boolean parameter (BoltDB rolls a failed transaction back,
leaving the store unchanged).
-/

namespace AddrAlloc

/-- A 4-byte IPv4 address, as the 4-byte `net.IP` slice used by the Go
code.  Each field is a byte value (< 256 for valid addresses). -/
structure Addr where
  b0 : Nat
  b1 : Nat
  b2 : Nat
  b3 : Nat
deriving Repr, DecidableEq

/-- All four bytes are in range, as they are for any real `net.IP`. -/
def validAddr (a : Addr) : Prop :=
  a.b0 < 256 ∧ a.b1 < 256 ∧ a.b2 < 256 ∧ a.b3 < 256

instance (a : Addr) : Decidable (validAddr a) := by
  unfold validAddr; infer_instance

/-- `ini`: first IP address to allocate, 10.8.0.2 (addr_alloc.go line 33). -/
def ini : Addr := ⟨10, 8, 0, 2⟩

/-- `fin`: last IP address, 10.92.255.255; an attempt to allocate this
address fails (addr_alloc.go line 37). -/
def fin : Addr := ⟨10, 92, 255, 255⟩

/-- `nextIP` (addr_alloc.go lines 51-67): increment `a[3]`; if it
wrapped to 0, increment `a[2]`, and so on up to `a[0]`.  The Go code
mutates the slice in place; here the updated address is returned.  Go's
`byte` increment is arithmetic modulo 256, written out as `% 256`. -/
def nextIP (a : Addr) : Addr :=
  if (a.b3 + 1) % 256 = 0 then
    if (a.b2 + 1) % 256 = 0 then
      if (a.b1 + 1) % 256 = 0 then
        ⟨(a.b0 + 1) % 256, (a.b1 + 1) % 256, (a.b2 + 1) % 256, (a.b3 + 1) % 256⟩
      else
        ⟨a.b0, (a.b1 + 1) % 256, (a.b2 + 1) % 256, (a.b3 + 1) % 256⟩
    else
      ⟨a.b0, a.b1, (a.b2 + 1) % 256, (a.b3 + 1) % 256⟩
  else
    ⟨a.b0, a.b1, a.b2, (a.b3 + 1) % 256⟩

/-- Big-endian 32-bit interpretation of an address. -/
def toNat (a : Addr) : Nat :=
  ((a.b0 * 256 + a.b1) * 256 + a.b2) * 256 + a.b3

theorem toNat_nextIP (a : Addr) (h : validAddr a) :
    toNat (nextIP a) = (toNat a + 1) % 2 ^ 32 := by
  obtain ⟨b0, b1, b2, b3⟩ := a
  have h' : b0 < 256 ∧ b1 < 256 ∧ b2 < 256 ∧ b3 < 256 := h
  obtain ⟨h0, h1, h2, h3⟩ := h'
  have p : (2 : Nat) ^ 32 = 4294967296 := by norm_num
  simp only [nextIP, toNat, p]
  split_ifs <;> dsimp only <;> omega

theorem validAddr_nextIP (a : Addr) (h : validAddr a) : validAddr (nextIP a) := by
  obtain ⟨b0, b1, b2, b3⟩ := a
  have h' : b0 < 256 ∧ b1 < 256 ∧ b2 < 256 ∧ b3 < 256 := h
  obtain ⟨h0, h1, h2, h3⟩ := h'
  simp only [nextIP, validAddr]
  split_ifs <;> dsimp only <;> omega

theorem toNat_inj (a b : Addr) (ha : validAddr a) (hb : validAddr b)
    (h : toNat a = toNat b) : a = b := by
  obtain ⟨a0, a1, a2, a3⟩ := a
  obtain ⟨b0, b1, b2, b3⟩ := b
  have ha' : a0 < 256 ∧ a1 < 256 ∧ a2 < 256 ∧ a3 < 256 := ha
  have hb' : b0 < 256 ∧ b1 < 256 ∧ b2 < 256 ∧ b3 < 256 := hb
  obtain ⟨ha0, ha1, ha2, ha3⟩ := ha'
  obtain ⟨hb0, hb1, hb2, hb3⟩ := hb'
  simp only [toNat] at h
  simp only [Addr.mk.injEq]
  refine ⟨?_, ?_, ?_, ?_⟩ <;> omega

/-- Claim C4: for every 4-byte address, `nextIP` increments the
least-significant byte and propagates carry byte-by-byte through all 4
bytes with no error result; on the big-endian 32-bit interpretation it
is addition of 1 modulo 2^32.  In particular
successor(10.8.0.255) = 10.8.1.0, successor(10.255.255.255) = 11.0.0.0,
and successor(255.255.255.255) = 0.0.0.0. -/
theorem nextIP_is_succ_mod (a : Addr) (h : validAddr a) :
    toNat (nextIP a) = (toNat a + 1) % 2 ^ 32 ∧
    nextIP ⟨10, 8, 0, 255⟩ = ⟨10, 8, 1, 0⟩ ∧
    nextIP ⟨10, 255, 255, 255⟩ = ⟨11, 0, 0, 0⟩ ∧
    nextIP ⟨255, 255, 255, 255⟩ = ⟨0, 0, 0, 0⟩ :=
  ⟨toNat_nextIP a h, by decide, by decide, by decide⟩

/-- Witness for C4 at the concrete address 10.8.0.255. -/
theorem nextIP_is_succ_mod_witness :
    toNat (nextIP ⟨10, 8, 0, 255⟩) = (toNat ⟨10, 8, 0, 255⟩ + 1) % 2 ^ 32 :=
  (nextIP_is_succ_mod ⟨10, 8, 0, 255⟩ (by decide)).1

/-- Dotted-decimal rendering, as `net.IP.String()` produces for a
4-byte address. -/
def addrString (a : Addr) : String :=
  toString a.b0 ++ "." ++ toString a.b1 ++ "." ++ toString a.b2 ++ "." ++ toString a.b3

/-- The BoltDB bucket "addresses": device-name keys mapping to 4-byte
address values, modelled as an association list with unique keys. -/
def lookupStore : List (String × Addr) → String → Option Addr
  | [], _ => none
  | (k, v) :: rest, d => if k = d then some v else lookupStore rest d

/-- BoltDB `Put`: overwrite the value when the key is present,
otherwise add the pair. -/
def storePut : List (String × Addr) → String → Addr → List (String × Addr)
  | [], d, a => [(d, a)]
  | (k, v) :: rest, d, a =>
      if k = d then (d, a) :: rest else (k, v) :: storePut rest d a

/-- The `Handler` state: the persisted records and the in-memory
cursor `next` (addr_alloc.go lines 41-48). -/
structure AllocState where
  store : List (String × Addr)
  next : Addr
deriving Repr, DecidableEq

/-- Outcome of `ServeGet`, tagged by which response the handler
writes. -/
inductive GetResult where
  | ok (addr : Addr)
  | lookupFailed
  | exhausted
  | writeFailed
deriving Repr, DecidableEq

/-- HTTP status written for each outcome (addr_alloc.go lines 146-199). -/
def statusOf : GetResult → Nat
  | .ok _ => 200
  | .lookupFailed => 500
  | .exhausted => 500
  | .writeFailed => 500

/-- Response body written for each outcome. -/
def bodyOf : GetResult → String
  | .ok a => addrString a
  | .lookupFailed => "Database lookup failed."
  | .exhausted => "Ran out of IP addresses."
  | .writeFailed => "Database write failed."

/-- `ServeGet` (addr_alloc.go lines 127-202).  First `db.Update`
transaction: look the device up; on transaction failure respond 500.
If not found: if `next` equals `fin` byte-for-byte
(`bytes.Compare(h.next, fin) == 0`), respond 500 with no write;
otherwise a second `db.Update` transaction `Put`s `device -> next`
(rolled back entirely on failure, responding 500), and only after it
succeeds is the cursor advanced with `nextIP`.  The two booleans say
whether the respective transaction fails. -/
def serveGet (s : AllocState) (device : String) (lookupFails writeFails : Bool) :
    GetResult × AllocState :=
  if lookupFails then (.lookupFailed, s)
  else
    match lookupStore s.store device with
    | some a => (.ok a, s)
    | none =>
        if s.next = fin then (.exhausted, s)
        else if writeFails then (.writeFailed, s)
        else (.ok s.next, ⟨storePut s.store device s.next, nextIP s.next⟩)

/-- `ServeAll` (addr_alloc.go lines 89-125): one read-only pass over
the bucket rendering each record; the handler state is not changed. -/
def serveAll (s : AllocState) : List (String × String) × AllocState :=
  (s.store.map fun p => (p.1, addrString p.2), s)

theorem serveGet_found (s : AllocState) (d : String) (a : Addr) (wf : Bool)
    (h : lookupStore s.store d = some a) :
    serveGet s d false wf = (.ok a, s) := by
  simp [serveGet, h]

theorem serveGet_unseen (s : AllocState) (d : String) (h : lookupStore s.store d = none)
    (hne : s.next ≠ fin) :
    serveGet s d false false =
      (.ok s.next, ⟨storePut s.store d s.next, nextIP s.next⟩) := by
  simp [serveGet, h, hne]

theorem lookupStore_storePut_other (st : List (String × Addr)) (d d' : String) (x : Addr)
    (hne : d' ≠ d) : lookupStore (storePut st d' x) d = lookupStore st d := by
  induction st with
  | nil => simp [storePut, lookupStore, hne]
  | cons p rest ih =>
      obtain ⟨k, v⟩ := p
      by_cases hk : k = d'
      · subst hk
        simp [storePut, lookupStore, hne]
      · simp only [storePut, if_neg hk, lookupStore]
        by_cases hd : k = d
        · simp [hd]
        · simp [hd, ih]

/-- Claim C1: for a device that already has a persisted record,
`ServeGet` returns exactly the stored address and leaves the state
untouched, for any cursor value (in particular also when
`next = fin`, the exhausted cursor) — so every call returns the
identical address. -/
theorem resolve_found_stable (s : AllocState) (d : String) (a : Addr) (wf : Bool)
    (h : lookupStore s.store d = some a) :
    serveGet s d false wf = (.ok a, s) :=
  serveGet_found s d a wf h

/-- Witness for C1: a recorded device is resolved to its stored
address even in a state whose cursor already equals `fin`. -/
theorem resolve_found_stable_witness :
    serveGet ⟨[("x", ini)], fin⟩ "x" false false =
      (.ok ini, ⟨[("x", ini)], fin⟩) :=
  resolve_found_stable ⟨[("x", ini)], fin⟩ "x" ini false (by decide)

/-- Claim C5: for an unseen device with `next = fin`, `ServeGet` fails
with the pool-exhausted response (status 500, "Ran out of IP
addresses."), writes no record and leaves cursor and mapping
unchanged. -/
theorem exhausted_no_write (s : AllocState) (d : String) (wf : Bool)
    (h1 : lookupStore s.store d = none) (h2 : s.next = fin) :
    serveGet s d false wf = (.exhausted, s) ∧
    statusOf .exhausted = 500 ∧ bodyOf .exhausted = "Ran out of IP addresses." := by
  refine ⟨?_, rfl, rfl⟩
  simp [serveGet, h1, h2]

/-- Witness for C5 at a concrete exhausted state. -/
theorem exhausted_no_write_witness :
    serveGet ⟨[("a", ini)], fin⟩ "c" false false = (.exhausted, ⟨[("a", ini)], fin⟩) :=
  (exhausted_no_write ⟨[("a", ini)], fin⟩ "c" false (by decide) rfl).1

/-- Claim C6: for an unseen device whose write transaction fails,
`ServeGet` fails with the storage-error response (status 500,
"Database write failed.") and both the persisted mapping and the
in-memory cursor are unchanged; the cursor is advanced only on the
success path, so no address is consumed. -/
theorem write_failure_unchanged (s : AllocState) (d : String)
    (h1 : lookupStore s.store d = none) (h2 : s.next ≠ fin) :
    serveGet s d false true = (.writeFailed, s) ∧
    statusOf .writeFailed = 500 ∧ bodyOf .writeFailed = "Database write failed." := by
  refine ⟨?_, rfl, rfl⟩
  simp [serveGet, h1, h2]

/-- Witness for C6 at a concrete state. -/
theorem write_failure_unchanged_witness :
    serveGet ⟨[], ini⟩ "d" false true = (.writeFailed, ⟨[], ini⟩) :=
  (write_failure_unchanged ⟨[], ini⟩ "d" rfl (by decide)).1

/-- Claim C8: record immutability.  An existing record `d -> a`
survives any `ServeGet` call (any device, any transaction-failure
pattern) with its address intact; resolving `d` itself takes the found
branch, which performs no mutation at all; and `ServeAll` leaves the
state unchanged.  (The recovery scan only computes a cursor from the
records and never writes them.) -/
theorem records_immutable (s : AllocState) (d e : String) (a : Addr) (lf wf : Bool)
    (h : lookupStore s.store d = some a) :
    lookupStore (serveGet s e lf wf).2.store d = some a ∧
    serveGet s d false wf = (.ok a, s) ∧
    (serveAll s).2 = s := by
  refine ⟨?_, serveGet_found s d a wf h, rfl⟩
  unfold serveGet
  cases lf with
  | true => exact h
  | false =>
      simp only [Bool.false_eq_true, if_false]
      cases he : lookupStore s.store e with
      | some b => exact h
      | none =>
          have hde : e ≠ d := fun hed => by rw [hed, h] at he; cases he
          by_cases hfin : s.next = fin
          · simp [hfin, h]
          · cases wf with
            | true => simp [hfin, h]
            | false =>
                simp only [hfin, if_false, Bool.false_eq_true]
                rw [lookupStore_storePut_other s.store d e s.next hde]
                exact h

/-- Witness for C8: the record "x" -> ini survives a fresh allocation
for another device "y". -/
theorem records_immutable_witness :
    lookupStore (serveGet ⟨[("x", ini)], nextIP ini⟩ "y" false false).2.store "x" =
      some ini :=
  (records_immutable ⟨[("x", ini)], nextIP ini⟩ "x" "y" ini false false (by decide)).1

/-- The first `db.Update` transaction of `ServeGet` (addr_alloc.go
lines 134-144): the existence check alone. -/
def lookupPhase (s : AllocState) (d : String) : Option Addr :=
  lookupStore s.store d

/-- The remainder of `ServeGet` for a request whose lookup transaction
found nothing (addr_alloc.go lines 155-193): the exhaustion test, the
second `db.Update` transaction writing `device -> next`, and the cursor
advance. -/
def allocPhase (s : AllocState) (d : String) : GetResult × AllocState :=
  if s.next = fin then (.exhausted, s)
  else (.ok s.next, ⟨storePut s.store d s.next, nextIP s.next⟩)

/-- `serveGet` (without storage failures) is exactly the lookup
transaction followed by the allocation phase: the two run as separate
transactions, not one. -/
theorem serveGet_phases (s : AllocState) (d : String) :
    serveGet s d false false =
      match lookupPhase s d with
      | some a => (.ok a, s)
      | none => allocPhase s d := by
  unfold serveGet lookupPhase allocPhase
  cases lookupStore s.store d <;> simp

/-- Claim C2 (violated by the code): the spec requires the existence
check and the write of the new record to happen in one atomic
transaction so that two concurrent first-time resolutions of the same
device cannot both allocate.  `ServeGet` instead runs them as two
separate `db.Update` transactions (`serveGet_phases`), so in the
interleaving where both lookup transactions run before either
allocation phase, both requests for the unseen device "dev" observe
"not found" and both allocate: the first returns `ini`, the second
returns `nextIP ini`, two distinct addresses for the same device, and
the stored record ends up overwritten with the second address. -/
theorem check_act_race :
    lookupPhase ⟨[], ini⟩ "dev" = none ∧
    allocPhase ⟨[], ini⟩ "dev" =
      (.ok ini, ⟨[("dev", ini)], nextIP ini⟩) ∧
    (allocPhase ⟨[("dev", ini)], nextIP ini⟩ "dev").1 = .ok (nextIP ini) ∧
    nextIP ini ≠ ini ∧
    lookupStore (allocPhase ⟨[("dev", ini)], nextIP ini⟩ "dev").2.store "dev" =
      some (nextIP ini) := by
  decide

/-- Route chosen by `ServeHTTP` for a request path. -/
inductive Route where
  | all
  | get (device : String)
  | notFound
deriving Repr, DecidableEq

/-- `strings.HasPrefix` on character lists. -/
def hasPfx : List Char → List Char → Bool
  | [], _ => true
  | _ :: _, [] => false
  | c :: cs, d :: ds => c == d && hasPfx cs ds

/-- `ServeHTTP` dispatch (addr_alloc.go lines 70-87): "/all" goes to
`ServeAll`; a path with the 5-character "/get/" at the front goes to
`ServeGet` with `strings.TrimPrefix(path, "/get/")` as the device
name; everything else is a 404. -/
def route (path : String) : Route :=
  if path = "/all" then .all
  else if hasPfx "/get/".toList path.toList then
    .get (String.mk (path.toList.drop 5))
  else .notFound

/-- Claim C10: the path "/get/" is dispatched to `ServeGet` with the
empty string as the device name, and the empty string is handled like
any other device: looked up, and when unseen (cursor not at `fin`)
allocated the cursor address and recorded; there is no non-empty
validation. -/
theorem empty_device_accepted (s : AllocState) :
    route "/get/" = .get "" ∧
    (lookupStore s.store "" = none → s.next ≠ fin →
      serveGet s "" false false =
        (.ok s.next, ⟨storePut s.store "" s.next, nextIP s.next⟩)) ∧
    (∀ a, lookupStore s.store "" = some a → serveGet s "" false false = (.ok a, s)) :=
  ⟨by decide, fun h hne => serveGet_unseen s "" h hne,
   fun a h => serveGet_found s "" a false h⟩

/-- Witness for C10: from the empty initial state, the empty device
name is allocated `ini` and recorded. -/
theorem empty_device_accepted_witness :
    route "/get/" = .get "" ∧
    serveGet ⟨[], ini⟩ "" false false =
      (.ok ini, ⟨storePut [] "" ini, nextIP ini⟩) :=
  ⟨(empty_device_accepted ⟨[], ini⟩).1,
   (empty_device_accepted ⟨[], ini⟩).2.1 rfl (by decide)⟩

/-- `bytes.Compare(a, b) >= 0` for two 4-byte values: lexicographic
byte comparison. -/
def addrGe (a b : Addr) : Bool :=
  if a.b0 = b.b0 then
    if a.b1 = b.b1 then
      if a.b2 = b.b2 then decide (b.b3 ≤ a.b3)
      else decide (b.b2 < a.b2)
    else decide (b.b1 < a.b1)
  else decide (b.b0 < a.b0)

theorem addrGe_iff (a b : Addr) (ha : validAddr a) (hb : validAddr b) :
    addrGe a b = true ↔ toNat b ≤ toNat a := by
  obtain ⟨a0, a1, a2, a3⟩ := a
  obtain ⟨b0, b1, b2, b3⟩ := b
  have ha' : a0 < 256 ∧ a1 < 256 ∧ a2 < 256 ∧ a3 < 256 := ha
  have hb' : b0 < 256 ∧ b1 < 256 ∧ b2 < 256 ∧ b3 < 256 := hb
  obtain ⟨ha0, ha1, ha2, ha3⟩ := ha'
  obtain ⟨hb0, hb1, hb2, hb3⟩ := hb'
  simp only [addrGe, toNat]
  split_ifs <;> dsimp only <;> simp only [decide_eq_true_eq] <;> omega

/-- The loop body of the recovery scan in `main` (addr_alloc.go lines
244-262): for each stored record, if its address compares `>=` the
current cursor, set the cursor to that address and step it with
`nextIP`.  The records are visited in the bucket's key order. -/
def scanGo : List (String × Addr) → Addr → Addr
  | [], next => next
  | (_, ip) :: rest, next =>
      scanGo rest (if addrGe ip next then nextIP ip else next)

/-- The whole recovery: `handler.next = ini` followed by the scan
(addr_alloc.go lines 229-265). -/
def recoverScan (records : List (String × Addr)) : Addr :=
  scanGo records ini

/-- Claim C9: the exhaustion guard is an exact byte-equality test
against `fin`, not an ordering test.  From any state whose cursor
differs from `fin` — including cursors strictly above `fin` — an
unseen device is allocated the cursor address; and such a state is
reachable at startup, since recovering over a record whose address is
at or above `fin` leaves the cursor strictly above `fin`
(10.93.0.0 recovers to cursor 10.93.0.1 > fin). -/
theorem exhaustion_guard_is_equality (s : AllocState) (d : String)
    (h1 : lookupStore s.store d = none) (h2 : s.next ≠ fin) :
    serveGet s d false false =
      (.ok s.next, ⟨storePut s.store d s.next, nextIP s.next⟩) ∧
    recoverScan [("e", ⟨10, 93, 0, 0⟩)] = ⟨10, 93, 0, 1⟩ ∧
    toNat fin < toNat ⟨10, 93, 0, 1⟩ :=
  ⟨serveGet_unseen s d h1 h2, by decide, by decide⟩

/-- Witness for C9: from the recovered out-of-pool cursor 10.93.0.1,
an unseen device is allocated 10.93.0.1, an address outside
[ini, fin). -/
theorem exhaustion_guard_is_equality_witness :
    serveGet ⟨[], ⟨10, 93, 0, 1⟩⟩ "d" false false =
      (.ok ⟨10, 93, 0, 1⟩,
        ⟨storePut [] "d" ⟨10, 93, 0, 1⟩, nextIP ⟨10, 93, 0, 1⟩⟩) ∧
    toNat fin < toNat ⟨10, 93, 0, 1⟩ :=
  ⟨(exhaustion_guard_is_equality ⟨[], ⟨10, 93, 0, 1⟩⟩ "d" rfl (by decide)).1,
   (exhaustion_guard_is_equality ⟨[], ⟨10, 93, 0, 1⟩⟩ "d" rfl (by decide)).2.2⟩

/-- Run a sequence of `ServeGet` requests (no storage failures) and
collect, in order, the addresses returned by the first-time
allocations — the requests whose device was unseen and which got a 200
response.  Cache hits and exhaustion responses contribute nothing. -/
def runAllocs : List String → AllocState → List Addr × AllocState
  | [], s => ([], s)
  | d :: ds, s =>
      let rs := serveGet s d false false
      let tail := runAllocs ds rs.2
      match rs.1, (lookupStore s.store d).isNone with
      | .ok a, true => (a :: tail.1, tail.2)
      | _, _ => tail

theorem runAllocs_cons_found (d : String) (ds : List String) (s : AllocState)
    (a : Addr) (h : lookupStore s.store d = some a) :
    runAllocs (d :: ds) s = runAllocs ds s := by
  simp [runAllocs, serveGet, h]

theorem runAllocs_cons_exhausted (d : String) (ds : List String) (s : AllocState)
    (h : lookupStore s.store d = none) (hfin : s.next = fin) :
    runAllocs (d :: ds) s = runAllocs ds s := by
  simp [runAllocs, serveGet, h, hfin]

theorem runAllocs_cons_fresh (d : String) (ds : List String) (s : AllocState)
    (h : lookupStore s.store d = none) (hfin : s.next ≠ fin) :
    runAllocs (d :: ds) s =
      ((s.next :: (runAllocs ds ⟨storePut s.store d s.next, nextIP s.next⟩).1),
       (runAllocs ds ⟨storePut s.store d s.next, nextIP s.next⟩).2) := by
  simp [runAllocs, serveGet, h, hfin]

theorem toNat_fin_lt : toNat fin < 2 ^ 32 := by decide

theorem runAllocs_mono (ds : List String) (s : AllocState)
    (hv : validAddr s.next) (hub : toNat s.next ≤ toNat fin) :
    (∀ a ∈ (runAllocs ds s).1, toNat s.next ≤ toNat a) ∧
    (runAllocs ds s).1.Pairwise (fun a b => toNat a < toNat b) := by
  induction ds generalizing s with
  | nil => simp [runAllocs]
  | cons d ds ih =>
      cases h : lookupStore s.store d with
      | some a =>
          rw [runAllocs_cons_found d ds s a h]
          exact ih s hv hub
      | none =>
          by_cases hfin : s.next = fin
          · rw [runAllocs_cons_exhausted d ds s h hfin]
            exact ih s hv hub
          · rw [runAllocs_cons_fresh d ds s h hfin]
            have hlt : toNat s.next < toNat fin := by
              rcases Nat.lt_or_ge (toNat s.next) (toNat fin) with hl | hg
              · exact hl
              · exact absurd (toNat_inj s.next fin (by exact hv) (by decide)
                  (Nat.le_antisymm hub hg)) hfin
            have hstep : toNat (nextIP s.next) = toNat s.next + 1 := by
              rw [toNat_nextIP s.next hv]
              exact Nat.mod_eq_of_lt (by have := toNat_fin_lt; omega)
            have hv' : validAddr (nextIP s.next) := validAddr_nextIP s.next hv
            have hub' : toNat (nextIP s.next) ≤ toNat fin := by omega
            obtain ⟨ihmem, ihpair⟩ :=
              ih ⟨storePut s.store d s.next, nextIP s.next⟩ hv' hub'
            dsimp only at ihmem ihpair
            constructor
            · intro a ha
              rcases List.mem_cons.mp ha with rfl | ha
              · exact Nat.le_refl _
              · have := ihmem a ha
                omega
            · refine List.Pairwise.cons ?_ ihpair
              intro b hb
              have := ihmem b hb
              omega

/-- Claim C7: starting from the empty namespace with cursor `ini`, the
addresses returned by successful first-time allocations are strictly
increasing in the big-endian 32-bit interpretation and the sequence
begins at `ini`; in particular any two distinct newly allocated
devices receive distinct addresses. -/
theorem fresh_allocation_sequence (ds : List String) :
    (runAllocs ds ⟨[], ini⟩).1.Pairwise (fun a b => toNat a < toNat b) ∧
    (ds ≠ [] → (runAllocs ds ⟨[], ini⟩).1.head? = some ini) := by
  constructor
  · exact (runAllocs_mono ds ⟨[], ini⟩ (by decide) (by decide)).2
  · intro hne
    cases ds with
    | nil => exact absurd rfl hne
    | cons d ds =>
        rw [runAllocs_cons_fresh d ds ⟨[], ini⟩ rfl (by decide)]
        rfl

/-- Witness for C7: a concrete two-request run allocates `ini` then
`nextIP ini`, strictly increasing and starting at `ini`. -/
theorem fresh_allocation_sequence_witness :
    (runAllocs ["a", "b"] ⟨[], ini⟩).1.Pairwise (fun a b => toNat a < toNat b) ∧
    (runAllocs ["a", "b"] ⟨[], ini⟩).1.head? = some ini :=
  ⟨(fresh_allocation_sequence ["a", "b"]).1,
   (fresh_allocation_sequence ["a", "b"]).2 (by decide)⟩

/-- Numeric image of one recovery-loop step: the cursor value after
seeing a record with address value `x` when the cursor value is `m`. -/
def natStep (m x : Nat) : Nat := if m ≤ x then x + 1 else m

theorem scanGo_bridge (records : List (String × Addr)) (n : Addr)
    (hn : validAddr n)
    (hrec : ∀ p ∈ records, validAddr p.2 ∧ toNat p.2 + 1 < 2 ^ 32) :
    toNat (scanGo records n) =
      List.foldl natStep (toNat n) (records.map fun p => toNat p.2) ∧
    validAddr (scanGo records n) := by
  induction records generalizing n with
  | nil => exact ⟨rfl, hn⟩
  | cons p rest ih =>
      obtain ⟨d, ip⟩ := p
      obtain ⟨hip, hlt⟩ := hrec (d, ip) (List.mem_cons_self _ _)
      have hrec' : ∀ q ∈ rest, validAddr q.2 ∧ toNat q.2 + 1 < 2 ^ 32 :=
        fun q hq => hrec q (List.mem_cons_of_mem _ hq)
      simp only [scanGo, List.map_cons, List.foldl_cons]
      cases hge : addrGe ip n with
      | true =>
          simp only [if_pos]
          have hle : toNat n ≤ toNat ip := (addrGe_iff ip n hip hn).mp hge
          have hstep : natStep (toNat n) (toNat ip) = toNat ip + 1 := by
            unfold natStep; rw [if_pos hle]
          rw [hstep]
          have hnext : toNat (nextIP ip) = toNat ip + 1 := by
            rw [toNat_nextIP ip hip]; exact Nat.mod_eq_of_lt hlt
          obtain ⟨e, v⟩ := ih (nextIP ip) (validAddr_nextIP ip hip) hrec'
          rw [hnext] at e
          exact ⟨e, v⟩
      | false =>
          simp only [Bool.false_eq_true, if_false]
          have hgt : ¬ toNat n ≤ toNat ip := fun hc => by
            rw [(addrGe_iff ip n hip hn).mpr hc] at hge; cases hge
          have hstep : natStep (toNat n) (toNat ip) = toNat n := by
            unfold natStep; rw [if_neg hgt]
          rw [hstep]
          exact ih n hn hrec'

theorem foldl_natStep_shift (xs : List Nat) (M : Nat) :
    List.foldl natStep (M + 1) xs = (List.foldl max M xs) + 1 := by
  induction xs generalizing M with
  | nil => rfl
  | cons x rest ih =>
      have h : natStep (M + 1) x = max M x + 1 := by
        unfold natStep; split_ifs <;> omega
      rw [List.foldl_cons, h, ih, List.foldl_cons]

theorem foldl_natStep_start (x : Nat) (rest : List Nat) (a : Nat) (h : a ≤ x) :
    List.foldl natStep a (x :: rest) = (List.foldl max 0 (x :: rest)) + 1 := by
  rw [List.foldl_cons, List.foldl_cons]
  have h1 : natStep a x = x + 1 := by unfold natStep; rw [if_pos h]
  rw [h1, foldl_natStep_shift, Nat.zero_max]

theorem foldl_max_perm {l1 l2 : List Nat} (h : l1.Perm l2) :
    ∀ a, List.foldl max a l1 = List.foldl max a l2 := by
  induction h with
  | nil => intro a; rfl
  | cons x _ ih => intro a; rw [List.foldl_cons, List.foldl_cons, ih]
  | swap x y l =>
      intro a
      rw [List.foldl_cons, List.foldl_cons, List.foldl_cons, List.foldl_cons]
      have h : max (max a y) x = max (max a x) y := by omega
      rw [h]
  | trans _ _ ih1 ih2 => intro a; rw [ih1 a, ih2 a]

set_option maxRecDepth 4000 in
set_option maxHeartbeats 1000000 in
theorem recoverScan_toNat (records : List (String × Addr))
    (h : ∀ p ∈ records, validAddr p.2 ∧ toNat ini ≤ toNat p.2 ∧ toNat p.2 < toNat fin)
    (hne : records ≠ []) :
    toNat (recoverScan records) =
      ((records.map fun p => toNat p.2).foldl max 0) + 1 ∧
    validAddr (recoverScan records) := by
  have hrec : ∀ p ∈ records, validAddr p.2 ∧ toNat p.2 + 1 < 2 ^ 32 := by
    intro p hp
    obtain ⟨h1, _, h3⟩ := h p hp
    have := toNat_fin_lt
    exact ⟨h1, by omega⟩
  obtain ⟨e, v⟩ := scanGo_bridge records ini (by decide) hrec
  refine ⟨?_, v⟩
  unfold recoverScan
  rw [e]
  cases records with
  | nil => exact absurd rfl hne
  | cons p rest =>
      simp only [List.map_cons]
      have hle : toNat ini ≤ toNat p.2 := (h p (List.mem_cons_self _ _)).2.1
      exact foldl_natStep_start _ _ _ hle

/-- Counterexample to claim C3 as stated: for the non-empty record set
holding one record at 10.0.0.0 (an address below `ini`), the recovery
scan leaves the cursor at `ini` = 10.8.0.2, not at
successor(10.0.0.0) = 10.0.0.1, the successor of the maximum recorded
address. -/
theorem recovery_cursor_counterexample :
    recoverScan [("d", ⟨10, 0, 0, 0⟩)] = ini ∧
    nextIP ⟨10, 0, 0, 0⟩ = ⟨10, 0, 0, 1⟩ ∧
    ini ≠ ⟨10, 0, 0, 1⟩ := by decide

/-- Claim C3 (amended): for every finite record set whose addresses
all lie in the pool — at or above `ini` and below `fin`, as the data
model prescribes — the recovery scan yields `ini` on the empty
namespace and successor(maximum recorded address) on a non-empty one
(stated as the big-endian value `max + 1`), and the resulting cursor
is the same for every scan order of the same records; being a pure
function of the record set, re-scanning is idempotent.  Without the
range restriction the characterization fails
(`recovery_cursor_counterexample`). -/
theorem recovery_cursor (records : List (String × Addr))
    (h : ∀ p ∈ records, validAddr p.2 ∧ toNat ini ≤ toNat p.2 ∧ toNat p.2 < toNat fin) :
    (records = [] → recoverScan records = ini) ∧
    (records ≠ [] →
      toNat (recoverScan records) =
        ((records.map fun p => toNat p.2).foldl max 0) + 1) ∧
    (∀ l : List (String × Addr), records.Perm l → recoverScan l = recoverScan records) := by
  refine ⟨?_, ?_, ?_⟩
  · rintro rfl; rfl
  · intro hne
    exact (recoverScan_toNat records h hne).1
  · intro l hperm
    cases records with
    | nil =>
        rw [hperm.symm.eq_nil]
    | cons p rest =>
        have hne : p :: rest ≠ [] := by simp
        have hnel : l ≠ [] := by
          intro hl
          rw [hl] at hperm
          exact hne hperm.eq_nil
        have hl : ∀ q ∈ l, validAddr q.2 ∧ toNat ini ≤ toNat q.2 ∧ toNat q.2 < toNat fin :=
          fun q hq => h q (hperm.mem_iff.mpr hq)
        obtain ⟨e1, v1⟩ := recoverScan_toNat (p :: rest) h hne
        obtain ⟨e2, v2⟩ := recoverScan_toNat l hl hnel
        apply toNat_inj _ _ v2 v1
        rw [e1, e2, foldl_max_perm (hperm.map fun q => toNat q.2) 0]

/-- Witness for C3 at concrete record sets: the scan of two in-pool
records in either order yields successor(max), and the empty namespace
yields `ini`. -/
theorem recovery_cursor_witness :
    toNat (recoverScan [("a", ⟨10, 8, 0, 2⟩), ("b", ⟨10, 8, 0, 7⟩)]) =
      (([("a", (⟨10, 8, 0, 2⟩ : Addr)), ("b", ⟨10, 8, 0, 7⟩)].map
        fun p => toNat p.2).foldl max 0) + 1 ∧
    recoverScan [("b", ⟨10, 8, 0, 7⟩), ("a", ⟨10, 8, 0, 2⟩)] =
      recoverScan [("a", ⟨10, 8, 0, 2⟩), ("b", ⟨10, 8, 0, 7⟩)] ∧
    recoverScan [] = ini :=
  ⟨(recovery_cursor [("a", ⟨10, 8, 0, 2⟩), ("b", ⟨10, 8, 0, 7⟩)] (by decide)).2.1
      (by decide),
   (recovery_cursor [("a", ⟨10, 8, 0, 2⟩), ("b", ⟨10, 8, 0, 7⟩)] (by decide)).2.2
      [("b", ⟨10, 8, 0, 7⟩), ("a", ⟨10, 8, 0, 2⟩)] (List.Perm.swap _ _ _),
   (recovery_cursor [] (by simp)).1 rfl⟩

end AddrAlloc
